import Mathlib

/-
  Verification development for the awsimple caching / freshness / pub-sub core.

  The definitions below are a shallow embedding of the Python source:
    * `lru_cache_write`, `get_directory_size`, `max_cache_size_of`, `find_lru`,
      `evict_loop`, `write_file`  embed  src/awsimple/cache.py
    * `scan_table_cached`, `get_accommodated_clock_skew`, `cache_life_ok`
      embed  DynamoDBAccess.scan_table_cached  in  src/awsimple/dynamodb.py
    * `update_table_mtime`, `get_table_mtime_f`, `put_item`, `upsert_mtime`,
      `lookup_mtime`  embed  _DynamoDBMetadataTable  in src/awsimple/dynamodb.py
    * `remove_old_queues`, `queue_timeout`  embed  src/awsimple/pubsub.py
    * `make_name_aws_safe`, `sha1`, `base36_31`  embed  make_name_aws_safe in
      src/awsimple/pubsub.py together with its external hash dependency
    * `get_messages`, `sub_enqueue`, `mk_sub`  embed  Sub.get_messages and the
      subscribe hand-off queue in src/awsimple/pubsub.py

  Python floats (timestamps, sizes, ceilings) are modelled as exact rationals;
  the filesystem is modelled as a list of files in directory-iteration order.
-/

namespace Awsimple

/-! ## Filesystem model for the LRU disk cache (src/awsimple/cache.py) -/

/-- A file in the cache directory tree, in directory-iteration (`rglob`) order
inside a `List`.  `size` is the byte size (`os.path.getsize`), `atime` the
access time (`os.path.getatime`).  `examineErr` models a file on which the
stat calls made while scanning for an eviction candidate raise
(`FileNotFoundError` for a file vanished between scans, `PermissionError`,
`IOError`); `unlinkErr` models a file whose `Path.unlink` raises. -/
structure FsFile where
  name : String
  size : Nat
  atime : Rat
  examineErr : Bool := false
  unlinkErr : Bool := false
deriving DecidableEq, Repr

/-- Embedding of `get_directory_size` (cache.py lines 25-33): total size of all
files under the cache directory tree. -/
def get_directory_size (dir : List FsFile) : Nat :=
  (dir.map (fun f => f.size)).sum

/-- Embedding of cache.py lines 54-56: the effective cache ceiling is the
minimum of `max_free_portion * get_disk_free()` and `max_absolute_cache_size`,
ignoring whichever is `None`; `none` means no limit at all. -/
def max_cache_size_of (max_absolute_cache_size : Option Nat)
    (max_free_portion : Option Rat) (disk_free : Nat) : Option Rat :=
  match max_free_portion, max_absolute_cache_size with
  | some p, some a => some (min (p * (disk_free : Rat)) (a : Rat))
  | some p, none => some (p * (disk_free : Rat))
  | none, some a => some ((a : Rat))
  | none, none => none

/-- Embedding of the eviction scan (cache.py lines 84-89): walk every file of
the directory tree in iteration order, tracking the file with the strictly
smallest access time seen so far (first one wins on ties).  `getatime` on a
file with `examineErr` raises, aborting the scan. -/
def find_lru : List FsFile → Option FsFile → Except Unit (Option FsFile)
  | [], acc => .ok acc
  | f :: rest, acc =>
      if f.examineErr then .error ()
      else
        match acc with
        | none => find_lru rest (some f)
        | some g => find_lru rest (some (if f.atime < g.atime then f else g))

/-- The pure result of the eviction scan on an error-free directory. -/
def lru_fold : List FsFile → Option FsFile → Option FsFile
  | [], acc => acc
  | f :: rest, acc =>
      match acc with
      | none => lru_fold rest (some f)
      | some g => lru_fold rest (some (if f.atime < g.atime then f else g))

/-- Embedding of the body of the eviction loop (cache.py lines 77-101): while
the projected overage is positive, find the least recently used file and
delete it, subtracting its size from the overage; if a pass cannot reduce the
overage (empty directory, or a zero-size eviction) give up.  An exception
while examining a candidate (`getatime`) or deleting it (`unlink`) aborts the
loop; the `Except.error` value carries the directory contents at the abort
point (the exception propagates to the handler at cache.py line 123).  `fuel`
bounds the number of iterations; every iteration that continues deletes one
file, so `evict_loop` below supplies fuel that can never run out. -/
def evict_go (fuel : Nat) (dir : List FsFile) (overage : Rat) :
    Except (List FsFile) (List FsFile) :=
  match fuel with
  | 0 => .ok dir
  | fuel + 1 =>
      if 0 < overage then
        match find_lru dir none with
        | .error _ => .error dir
        | .ok none => .ok dir
        | .ok (some lru) =>
            if lru.unlinkErr then .error dir
            else
              if overage - (lru.size : Rat) = overage then .ok (dir.erase lru)
              else evict_go fuel (dir.erase lru) (overage - (lru.size : Rat))
      else .ok dir

/-- The eviction loop of cache.py lines 77-101 (see `evict_go`). -/
def evict_loop (dir : List FsFile) (overage : Rat) :
    Except (List FsFile) (List FsFile) :=
  evict_go (dir.length + 1) dir overage

/-- Embedding of the cache write itself (cache.py lines 107-117): the new data
is written to `cache_dir / cache_file_name`, overwriting a file of that name
if present (the overwritten file keeps its position in iteration order, a new
file appears at the end); the written file has the new size and a fresh access
time, and no pending filesystem faults. -/
def write_file (name : String) (size : Nat) (atime : Rat) :
    List FsFile → List FsFile
  | [] => [⟨name, size, atime, false, false⟩]
  | f :: rest =>
      if f.name = name then ⟨name, size, atime, false, false⟩ :: rest
      else f :: write_file name size atime rest

/-- Embedding of `lru_cache_write` (cache.py lines 36-126).  Arguments: the
size of the new data (`len(new_data)` for bytes, `getsize` for a path), the
cache file name, the access time the written file will carry, the current
cache directory contents, the two optional limits and the current free disk
space.  Returns the `wrote_to_cache` flag and the directory contents after the
call.  A filesystem exception during eviction lands in the handler at line
123, which logs and falls through, leaving `wrote_to_cache = False`. -/
def lru_cache_write (new_size : Nat) (cache_file_name : String)
    (new_atime : Rat) (dir : List FsFile) (max_absolute_cache_size : Option Nat)
    (max_free_portion : Option Rat) (disk_free : Nat) : Bool × List FsFile :=
  match max_cache_size_of max_absolute_cache_size max_free_portion disk_free with
  | none => (true, write_file cache_file_name new_size new_atime dir)
  | some max_cache_size =>
      if (new_size : Rat) > max_cache_size then
        -- new file will never fit so don't try to evict to make room for it
        (false, dir)
      else
        match evict_loop dir
            (((get_directory_size dir : Rat) + (new_size : Rat)) - max_cache_size) with
        | .error d => (false, d)
        | .ok d =>
            if (get_directory_size d : Rat) + (new_size : Rat) ≤ max_cache_size then
              (true, write_file cache_file_name new_size new_atime d)
            else (false, d)

/-! ## DynamoDB scan cache (DynamoDBAccess.scan_table_cached, dynamodb.py) -/

/-- Embedding of `get_accommodated_clock_skew` (dynamodb.py lines 65-67):
allowance for clock skew between systems, in seconds. -/
def get_accommodated_clock_skew : Rat := 100

/-- The local pickled snapshot file for one table: its modification time
(`getmtime`), the deserialized table rows it holds, and whether reading or
unpickling it raises (`EOFError`, `OSError`, `pickle.PickleError`). -/
structure CacheFile (α : Type) where
  mtime : Rat
  contents : List α
  corrupt : Bool := false
deriving DecidableEq, Repr

/-- The state `scan_table_cached` operates on: the optional local snapshot
file (`none` when `getmtime`/`open` raise `FileNotFoundError`), the
FreshnessTable record for this table in the metadata table (`none` when no
record exists), and the remote table rows (`none` when the remote table does
not exist, making `scan_table` raise `DynamoDBTableNotFound` or
`ResourceNotFoundException`). -/
structure ScanState (α : Type) where
  cache_file : Option (CacheFile α)
  meta_mtime : Option Rat
  remote : Option (List α)
deriving DecidableEq, Repr

/-- Embedding of the cache-life test at dynamodb.py line 373:
`now <= getmtime(cache_file_path) + self.cache_life`.  The default
`cache_life` is `math.inf` (cache.py line 134), modelled as `none`. -/
def cache_life_ok (now mtime : Rat) : Option Rat → Bool
  | none => true
  | some life => decide (now ≤ mtime + life)

/-- The fresh-fetch path of `scan_table_cached` (dynamodb.py lines 392-402):
scan the remote table and persist the result as the new local snapshot; a
table-not-found error yields `[]` without writing a snapshot. -/
def fresh_scan {α : Type} (now : Rat) (st : ScanState α) :
    List α × Bool × ScanState α :=
  match st.remote with
  | some rows => (rows, false, { st with cache_file := some ⟨now, rows, false⟩ })
  | none => ([], false, st)

/-- Embedding of `DynamoDBAccess.scan_table_cached` (dynamodb.py lines
353-405).  Returns the table data, the `cache_hit` flag, and the state after
the call.  The hit test at line 380 is
`table_mtime_f is not None and table_mtime_f + get_accommodated_clock_skew() <= cache_file_mtime`;
a corrupted snapshot is deleted and treated as a miss (lines 387-390); when
`invalidate_cache` is set the snapshot is deleted up front (lines 366-367). -/
def scan_table_cached {α : Type} (cache_life : Option Rat)
    (invalidate_cache : Bool) (now : Rat) (st : ScanState α) :
    List α × Bool × ScanState α :=
  let st := if invalidate_cache then { st with cache_file := none } else st
  match st.cache_file with
  | none => fresh_scan now st
  | some cf =>
      if cache_life_ok now cf.mtime cache_life then
        if cf.corrupt then fresh_scan now { st with cache_file := none }
        else
          let hit : Bool :=
            match st.meta_mtime with
            | some m => decide (m + get_accommodated_clock_skew ≤ cf.mtime)
            | none => false
          if hit then (cf.contents, true, st) else fresh_scan now st
      else fresh_scan now st

/-! ## FreshnessTable (_DynamoDBMetadataTable, dynamodb.py lines 862-939) -/

/-- Error codes of the backend `ClientError`s distinguished by
`update_table_mtime` (dynamodb.py lines 911-920). -/
inductive DbErrorCode where
  | resourceNotFound
  | validation
  | other
deriving DecidableEq, Repr

/-- One metadata table: `none` when the underlying DynamoDB table does not
exist, otherwise the stored items as an association list from the primary key
`(service, name)` (partition key `service`, sort key `name`) to the stored
`mtime_f` value.  The stored `mtime_human` field is a rendering of `mtime_f`
and carries no extra information. -/
structure MetadataTableState where
  table : Option (List ((String × String) × Rat))
deriving DecidableEq, Repr

/-- Upsert semantics of DynamoDB `put_item` on the metadata table: replace
the item with the same primary key, or add it. -/
def upsert_mtime (k : String × String) (v : Rat) :
    List ((String × String) × Rat) → List ((String × String) × Rat)
  | [] => [(k, v)]
  | (k2, v2) :: rest =>
      if k2 = k then (k, v) :: rest else (k2, v2) :: upsert_mtime k v rest

/-- Lookup semantics of DynamoDB `get_item` on the metadata table: the item
with this primary key, if any. -/
def lookup_mtime (k : String × String) :
    List ((String × String) × Rat) → Option Rat
  | [] => none
  | (k2, v2) :: rest => if k2 = k then some v2 else lookup_mtime k rest

/-- Backend `put_item` call (dynamodb.py line 910): raises
`ResourceNotFoundException` when the metadata table does not exist. -/
def put_item (st : MetadataTableState) (k : String × String) (v : Rat) :
    Except DbErrorCode MetadataTableState :=
  match st.table with
  | none => .error .resourceNotFound
  | some t => .ok ⟨some (upsert_mtime k v t)⟩

/-- Embedding of `_DynamoDBMetadataTable.update_table_mtime` (dynamodb.py
lines 894-922).  `fault` injects a backend `ClientError` with the given code
on the first `put_item` attempt (`none` lets the put behave normally); `now`
is `time.time()`; `k` is the `(service, name)` primary key built from
`self.service` and `self.table_name`.  On `ValidationException` the metadata
table is deleted and recreated and the put retried once; on
`ResourceNotFoundException` it is created and the put retried once; any other
error code is re-raised.  The returned number counts `put_item` attempts. -/
def update_table_mtime (fault : Option DbErrorCode) (now : Rat)
    (st : MetadataTableState) (k : String × String) :
    Except DbErrorCode (MetadataTableState × Nat) :=
  let first : Except DbErrorCode MetadataTableState :=
    match fault with
    | some e => .error e
    | none => put_item st k now
  match first with
  | .ok st2 => .ok (st2, 1)
  | .error .other => .error .other
  | .error _ =>
      -- delete (for ValidationException) and (re)create the metadata table,
      -- then retry the put exactly once on the freshly created empty table
      match put_item ⟨some []⟩ k now with
      | .ok st2 => .ok (st2, 2)
      | .error e2 => .error e2

/-- Embedding of `_DynamoDBMetadataTable.get_table_mtime_f` (dynamodb.py
lines 924-939): read the item for this `(service, name)` key; an absent item
or absent `mtime_f` attribute yields `None`.  A missing metadata table makes
the backend `get_item` raise `ResourceNotFoundException`, which this method
does not catch. -/
def get_table_mtime_f (st : MetadataTableState) (k : String × String) :
    Except DbErrorCode (Option Rat) :=
  match st.table with
  | none => .error .resourceNotFound
  | some t => .ok (lookup_mtime k t)

/-! ## Idle queue reaping (remove_old_queues, pubsub.py lines 35-58) -/

/-- Embedding of `queue_timeout` (pubsub.py line 27):
`timedelta(days=30).total_seconds()`. -/
def queue_timeout : Rat := 2592000

/-- Embedding of `remove_old_queues` (pubsub.py lines 35-58).  `queues` is the
listing returned by `get_all_sqs_queues(channel)` (the queue names matching
the channel, in listing order); `mtime_of` gives each queue's FreshnessTable
mtime (`get_table_mtime_f`); `delete_raises` tells whether `delete_queue`
raises `ClientError` for a queue (caught and treated as "already does not
exist", which is benign).  A queue is deleted, and appended to the returned
list, exactly when its mtime is present and `time.time() - mtime >
queue_timeout`; a channel shorter than 2 characters is refused outright. -/
def remove_old_queues (channel : String) (now : Rat) (queues : List String)
    (mtime_of : String → Option Rat) (delete_raises : String → Bool) :
    List String :=
  if channel.length < 2 then []
  else
    queues.foldl
      (fun removed q =>
        match mtime_of q with
        | some m =>
            if now - m > queue_timeout then
              -- delete_queue; a ClientError here only changes what is logged
              match delete_raises q with
              | true => removed ++ [q]
              | false => removed ++ [q]
            else removed
        | none => removed)
      []

/-! ## Name sanitization (make_name_aws_safe, pubsub.py lines 129-140)

`make_name_aws_safe` concatenates its arguments and returns
`strif.hash_string(...).base36`, asserting the result has length 31.
`strif.hash_string` is an external library dependency, not part of this
repository; it computes the SHA-1 digest of the UTF-8 encoding of the string
and `base36` renders that digest as a fixed-width base-36 numeral (digits
`0-9a-z`, most significant first).  The SHA-1 and base-36 definitions below
follow that behaviour and reproduce the concrete outputs pinned by the
repository's own test test_pubsub_make_name_aws_safe.py, e.g.
`make_name_aws_safe ["ab"] = "phbce4exwcst2t3d0hqd8k81nc27kd8"`. -/

/-- Rotate a 32-bit word left by `n` bits. -/
def rotl32 (n x : Nat) : Nat :=
  ((x <<< n) % 2 ^ 32) ||| (x >>> (32 - n))

/-- SHA-1 padding: append `0x80`, zero bytes up to 56 mod 64, then the
original length in bits as 8 big-endian bytes. -/
def sha1_pad (msg : List Nat) : List Nat :=
  let z := (120 - ((msg.length + 1) % 64)) % 64
  msg ++ [0x80] ++ List.replicate z 0 ++
    (List.range 8).map (fun i => ((8 * msg.length) >>> (8 * (7 - i))) % 256)

/-- Group a byte list into big-endian 32-bit words. -/
def bytes_to_words : List Nat → List Nat
  | b0 :: b1 :: b2 :: b3 :: rest =>
      (((b0 * 256 + b1) * 256 + b2) * 256 + b3) :: bytes_to_words rest
  | _ => []

/-- Extend a 16-word chunk to the 80-word SHA-1 message schedule; the
accumulator is kept newest-first. -/
def sha1_schedule_rev : Nat → List Nat → List Nat
  | 0, acc => acc
  | k + 1, acc =>
      sha1_schedule_rev k
        ((rotl32 1 ((acc.getD 2 0) ^^^ (acc.getD 7 0) ^^^
          (acc.getD 13 0) ^^^ (acc.getD 15 0))) :: acc)

/-- The SHA-1 round function for round `i`. -/
def sha1_f (i b c d : Nat) : Nat :=
  if i < 20 then (b &&& c) ||| (((2 ^ 32 - 1) ^^^ b) &&& d)
  else if i < 40 then b ^^^ c ^^^ d
  else if i < 60 then (b &&& c) ||| (b &&& d) ||| (c &&& d)
  else b ^^^ c ^^^ d

/-- The SHA-1 round constant for round `i`. -/
def sha1_k (i : Nat) : Nat :=
  if i < 20 then 0x5A827999
  else if i < 40 then 0x6ED9EBA1
  else if i < 60 then 0x8F1BBCDC
  else 0xCA62C1D6

/-- One SHA-1 round applied to the working state. -/
def sha1_round (st : Nat × Nat × Nat × Nat × Nat) (iw : Nat × Nat) :
    Nat × Nat × Nat × Nat × Nat :=
  let (a, b, c, d, e) := st
  let (i, w) := iw
  ((rotl32 5 a + sha1_f i b c d + e + sha1_k i + w) % 2 ^ 32, a, rotl32 30 b, c, d)

/-- Compress one 16-word chunk into the hash state. -/
def sha1_compress (h : Nat × Nat × Nat × Nat × Nat) (chunk : List Nat) :
    Nat × Nat × Nat × Nat × Nat :=
  let sched := (sha1_schedule_rev 64 chunk.reverse).reverse
  let (h0, h1, h2, h3, h4) := h
  let (a, b, c, d, e) := sched.enum.foldl sha1_round (h0, h1, h2, h3, h4)
  ((h0 + a) % 2 ^ 32, (h1 + b) % 2 ^ 32, (h2 + c) % 2 ^ 32,
    (h3 + d) % 2 ^ 32, (h4 + e) % 2 ^ 32)

/-- Process the padded message 16 words at a time.  `fuel` bounds the number
of chunks; a padded message of `n` words has `n / 16 ≤ n` chunks, so the
caller's fuel never runs out. -/
def sha1_process (fuel : Nat) (h : Nat × Nat × Nat × Nat × Nat) :
    List Nat → Nat × Nat × Nat × Nat × Nat
  | [] => h
  | ws =>
      match fuel with
      | 0 => h
      | fuel + 1 => sha1_process fuel (sha1_compress h (ws.take 16)) (ws.drop 16)

/-- The SHA-1 digest of a byte sequence, as a 160-bit natural number
(big-endian, as `int.from_bytes(digest, "big")` reads it). -/
def sha1 (msg : List Nat) : Nat :=
  let ws := bytes_to_words (sha1_pad msg)
  let (h0, h1, h2, h3, h4) :=
    sha1_process ws.length
      (0x67452301, 0xEFCDAB89, 0x98BADCFE, 0x10325476, 0xC3D2E1F0) ws
  (((h0 * 2 ^ 32 + h1) * 2 ^ 32 + h2) * 2 ^ 32 + h3) * 2 ^ 32 + h4

/-- UTF-8 encoding of one character (as Python `str.encode` produces it). -/
def utf8_encode_char (c : Char) : List Nat :=
  let n := c.toNat
  if n < 0x80 then [n]
  else if n < 0x800 then
    [0xC0 ||| (n >>> 6), 0x80 ||| (n &&& 0x3F)]
  else if n < 0x10000 then
    [0xE0 ||| (n >>> 12), 0x80 ||| ((n >>> 6) &&& 0x3F), 0x80 ||| (n &&& 0x3F)]
  else
    [0xF0 ||| (n >>> 18), 0x80 ||| ((n >>> 12) &&& 0x3F),
      0x80 ||| ((n >>> 6) &&& 0x3F), 0x80 ||| (n &&& 0x3F)]

/-- UTF-8 encoding of a string. -/
def utf8_bytes (s : String) : List Nat :=
  s.data.flatMap utf8_encode_char

/-- The base-36 digit characters `0-9a-z`. -/
def base36_digit (d : Nat) : Char :=
  if d < 10 then Char.ofNat (48 + d) else Char.ofNat (87 + d)

/-- A natural number rendered as a 31-digit base-36 numeral, most significant
digit first, zero-padded on the left (`strif`'s fixed-width `base36` of a
SHA-1 digest; a digest is below `2^160 < 36^31`, so no digits are lost). -/
def base36_31 (n : Nat) : String :=
  String.mk ((List.range 31).reverse.map (fun i => base36_digit ((n / 36 ^ i) % 36)))

/-- Embedding of `make_name_aws_safe` (pubsub.py lines 129-140): join the
arguments, hash, and render in base 36 (`@lru_cache` only memoizes; it does
not change the value). -/
def make_name_aws_safe (args : List String) : String :=
  base36_31 (sha1 (utf8_bytes (String.join args)))

/-! ## Subscriber polling (Sub.get_messages, pubsub.py lines 340-358) -/

/-- The polling-relevant state of a `Sub`: the `use_sub_queue` flag (set from
the `sub_poll` constructor argument) and the internal subscribe hand-off
queue `_sub_queue`, front of the list = front of the FIFO queue. -/
structure SubState where
  use_sub_queue : Bool
  sub_queue : List String
deriving DecidableEq, Repr

/-- A freshly constructed `Sub` (pubsub.py lines 146-183): `use_sub_queue :=
sub_poll` and an empty `_sub_queue`. -/
def mk_sub (sub_poll : Bool) : SubState :=
  ⟨sub_poll, []⟩

/-- The coordinator loop's `self._sub_queue.put(message_string)` (pubsub.py
line 243): enqueue at the back of the FIFO queue. -/
def sub_enqueue (st : SubState) (message_string : String) : SubState :=
  { st with sub_queue := st.sub_queue ++ [message_string] }

/-- Embedding of `Sub.get_messages` (pubsub.py lines 340-358): raise
`RuntimeError` unless `sub_poll` was set; otherwise pop every buffered
message string in FIFO order, decode each with `json.loads` (passed in here
as `json_loads`), and return the decoded list, leaving the queue empty. -/
def get_messages {α : Type} (json_loads : String → α) (st : SubState) :
    Except String (List α × SubState) :=
  if st.use_sub_queue then
    .ok (st.sub_queue.map json_loads, { st with sub_queue := [] })
  else
    .error "sub_poll must be True to use get_messages()"

/-! ## Helper lemmas about the cache model -/

/-- Writing a file into the directory grows the total size by at most the new
file's size (exactly, when no file of that name is overwritten). -/
theorem get_directory_size_write_file_le (name : String) (s : Nat) (a : Rat) :
    ∀ dir : List FsFile,
      get_directory_size (write_file name s a dir) ≤ get_directory_size dir + s := by
  intro dir
  induction dir with
  | nil => simp [write_file, get_directory_size]
  | cons f rest ih =>
      by_cases hf : f.name = name
      · simp only [write_file, hf, if_pos, get_directory_size, List.map_cons,
          List.sum_cons] at *
        omega
      · simp only [write_file, hf, if_neg, get_directory_size, List.map_cons,
          List.sum_cons, not_false_iff] at *
        omega

/-- Deleting a directory member shrinks the total size by exactly its size. -/
theorem get_directory_size_erase {m : FsFile} :
    ∀ {dir : List FsFile}, m ∈ dir →
      get_directory_size (dir.erase m) + m.size = get_directory_size dir := by
  intro dir
  induction dir with
  | nil => intro h; cases h
  | cons f rest ih =>
      intro hmem
      by_cases hf : f = m
      · subst hf
        simp [List.erase_cons_head, get_directory_size, Nat.add_comm]
      · have hm2 : m ∈ rest := by
          rcases List.mem_cons.mp hmem with h | h
          · exact absurd h.symm hf
          · exact h
        have hne : (f == m) = false := beq_false_of_ne hf
        have herase : (f :: rest).erase m = f :: rest.erase m := by
          simp [List.erase_cons, hne]
        rw [herase]
        simp only [get_directory_size, List.map_cons, List.sum_cons]
        have := ih hm2
        simp only [get_directory_size] at this
        omega

/-- A successful eviction scan returns either a member of the directory or the
accumulator it started from. -/
theorem find_lru_mem_aux (dir : List FsFile) (acc : Option FsFile)
    (res : Option FsFile) (h : find_lru dir acc = .ok res) :
    (∃ f, res = some f ∧ f ∈ dir) ∨ res = acc := by
  induction dir generalizing acc with
  | nil =>
      simp [find_lru] at h
      right; exact h.symm
  | cons f rest ih =>
      by_cases herr : f.examineErr
      · simp [find_lru, herr] at h
      · simp only [find_lru, herr, Bool.false_eq_true, if_false] at h
        match hacc : acc with
        | none =>
            rcases ih (some f) (by simpa [hacc] using h) with ⟨g, hg, hmem⟩ | heq
            · exact Or.inl ⟨g, hg, List.mem_cons_of_mem f hmem⟩
            · exact Or.inl ⟨f, heq, List.mem_cons_self f rest⟩
        | some g =>
            rcases ih _ (by simpa [hacc] using h) with ⟨g2, hg2, hmem⟩ | heq
            · exact Or.inl ⟨g2, hg2, List.mem_cons_of_mem f hmem⟩
            · by_cases hlt : f.atime < g.atime
              · simp [hlt] at heq
                exact Or.inl ⟨f, heq, List.mem_cons_self f rest⟩
              · simp [hlt] at heq
                right
                simp [heq]

/-- On an error-free directory the eviction scan never raises and computes
the pure minimum fold. -/
theorem find_lru_eq_fold :
    ∀ (dir : List FsFile), (∀ f ∈ dir, f.examineErr = false) →
      ∀ acc, find_lru dir acc = .ok (lru_fold dir acc) := by
  intro dir
  induction dir with
  | nil => intro _ acc; rfl
  | cons f rest ih =>
      intro herr acc
      have hf : f.examineErr = false := herr f (List.mem_cons_self f rest)
      have hrest : ∀ g ∈ rest, g.examineErr = false :=
        fun g hg => herr g (List.mem_cons_of_mem f hg)
      cases acc with
      | none => simp [find_lru, lru_fold, hf, ih hrest]
      | some g => simp [find_lru, lru_fold, hf, ih hrest]

/-- Once the accumulator holds a file at least as recent as everything left to
scan, the fold keeps it. -/
theorem lru_fold_stay {m : FsFile} :
    ∀ (dir : List FsFile), (∀ g ∈ dir, ¬ g.atime < m.atime) →
      lru_fold dir (some m) = some m := by
  intro dir
  induction dir with
  | nil => intro _; rfl
  | cons f rest ih =>
      intro hge
      have hf : ¬ f.atime < m.atime := hge f (List.mem_cons_self f rest)
      simp only [lru_fold, hf, if_neg, if_false]
      exact ih fun g hg => hge g (List.mem_cons_of_mem f hg)

/-- The eviction scan finds the strict minimum of the access times. -/
theorem lru_fold_strict_min {m : FsFile} :
    ∀ (dir : List FsFile) (acc : Option FsFile), m ∈ dir →
      (∀ g ∈ dir, g ≠ m → m.atime < g.atime) →
      (acc = none ∨ ∃ a, acc = some a ∧ m.atime < a.atime) →
      lru_fold dir acc = some m := by
  intro dir
  induction dir with
  | nil => intro acc h; cases h
  | cons f rest ih =>
      intro acc hmem hmin hacc
      by_cases hfm : f = m
      · subst hfm
        have hstay : ∀ g ∈ rest, ¬ g.atime < f.atime := by
          intro g hg
          by_cases hgf : g = f
          · subst hgf; exact lt_irrefl _
          · exact not_lt_of_gt (hmin g (List.mem_cons_of_mem f hg) hgf)
        rcases hacc with hnone | ⟨a, ha, hlt⟩
        · subst hnone
          simpa [lru_fold] using lru_fold_stay rest hstay
        · subst ha
          simp only [lru_fold, hlt, if_pos]
          exact lru_fold_stay rest hstay
      · have hm2 : m ∈ rest := by
          rcases List.mem_cons.mp hmem with h | h
          · exact absurd h.symm hfm
          · exact h
        have hmf : m.atime < f.atime :=
          hmin f (List.mem_cons_self f rest) hfm
        have hmin2 : ∀ g ∈ rest, g ≠ m → m.atime < g.atime :=
          fun g hg => hmin g (List.mem_cons_of_mem f hg)
        rcases hacc with hnone | ⟨a, ha, hlt⟩
        · subst hnone
          exact ih (some f) hm2 hmin2 (Or.inr ⟨f, rfl, hmf⟩)
        · subst ha
          by_cases hfa : f.atime < a.atime
          · simp only [lru_fold, hfa, if_pos]
            exact ih (some f) hm2 hmin2 (Or.inr ⟨f, rfl, hmf⟩)
          · simp only [lru_fold, hfa, if_neg, if_false]
            exact ih (some a) hm2 hmin2 (Or.inr ⟨a, rfl, hlt⟩)

/-- The eviction loop only ever deletes files: whether it completes or aborts
on a filesystem error, the resulting directory is a sublist of the input. -/
theorem evict_go_sublist :
    ∀ (fuel : Nat) (dir : List FsFile) (ov : Rat) (d : List FsFile),
      evict_go fuel dir ov = .error d ∨ evict_go fuel dir ov = .ok d →
      d.Sublist dir := by
  intro fuel
  induction fuel with
  | zero =>
      intro dir ov d h
      rcases h with h | h
      · simp [evict_go] at h
      · simp [evict_go] at h
        exact h ▸ List.Sublist.refl d
  | succ fuel ih =>
      intro dir ov d h
      by_cases hov : 0 < ov
      · rcases hlru : find_lru dir none with e | r
        · rcases h with h | h
          · simp [evict_go, hov, hlru] at h
            exact h ▸ List.Sublist.refl d
          · simp [evict_go, hov, hlru] at h
        · cases r with
          | none =>
              rcases h with h | h
              · simp [evict_go, hov, hlru] at h
              · simp [evict_go, hov, hlru] at h
                exact h ▸ List.Sublist.refl d
          | some lru =>
              by_cases hul : lru.unlinkErr
              · rcases h with h | h
                · simp [evict_go, hov, hlru, hul] at h
                  exact h ▸ List.Sublist.refl d
                · simp [evict_go, hov, hlru, hul] at h
              · by_cases hz : ov - (lru.size : Rat) = ov
                · rcases h with h | h
                  · simp [evict_go, hov, hlru, hul, hz] at h
                  · simp [evict_go, hov, hlru, hul, hz] at h
                    exact h ▸ List.erase_sublist lru dir
                · have hrec :
                      evict_go (fuel + 1) dir ov =
                        evict_go fuel (dir.erase lru) (ov - (lru.size : Rat)) := by
                    simp [evict_go, hov, hlru, hul, hz]
                  rw [hrec] at h
                  exact (ih (dir.erase lru) _ d h).trans (List.erase_sublist lru dir)
      · rcases h with h | h
        · simp [evict_go, hov] at h
        · simp [evict_go, hov] at h
          exact h ▸ List.Sublist.refl d

/-! ## Claim theorems for the LRU disk cache -/

/-- C3 (confirmed): for any call to `lru_cache_write` on any cache directory
(hence after every call of any sequence of calls) whose effective ceiling is
configured, if the call reports a successful write then the total size of the
cache directory afterwards is at most the effective ceiling, the minimum of
the absolute limit and the free-space fraction (an unset pair of limits means
no ceiling and no bound is claimed). -/
theorem lru_cache_write_size_bound
    (new_size : Nat) (name : String) (new_atime : Rat) (dir : List FsFile)
    (mabs : Option Nat) (mfp : Option Rat) (free : Nat) (c : Rat)
    (hceil : max_cache_size_of mabs mfp free = some c)
    (hw : (lru_cache_write new_size name new_atime dir mabs mfp free).1 = true) :
    ((get_directory_size
        (lru_cache_write new_size name new_atime dir mabs mfp free).2 : Nat) : Rat) ≤ c := by
  unfold lru_cache_write at hw ⊢
  simp only [hceil] at hw ⊢
  by_cases hbig : (new_size : Rat) > c
  · rw [if_pos hbig] at hw
    exact absurd hw (by simp)
  · rw [if_neg hbig] at hw ⊢
    rcases hev : evict_loop dir (((get_directory_size dir : Rat) + (new_size : Rat)) - c)
      with d | d
    · rw [hev] at hw
      simp at hw
    · rw [hev] at hw
      simp only at hw ⊢
      by_cases hroom : (get_directory_size d : Rat) + (new_size : Rat) ≤ c
      · rw [if_pos hroom]
        have hle := get_directory_size_write_file_le name new_size new_atime d
        have hcast : ((get_directory_size (write_file name new_size new_atime d) : Nat) : Rat)
            ≤ (get_directory_size d : Rat) + (new_size : Rat) := by
          exact_mod_cast hle
        exact le_trans hcast hroom
      · rw [if_neg hroom] at hw
        exact absurd hw (by simp)

/-- Witness for C3 at a concrete input: a 3-byte directory with a 4-byte
ceiling takes a 2-byte write after evicting, ending within the ceiling. -/
theorem lru_cache_write_size_bound_witness :
    max_cache_size_of (some 4) none 0 = some 4 ∧
    (lru_cache_write 2 "n" 5 [⟨"old", 3, 1, false, false⟩] (some 4) none 0).1 = true ∧
    ((get_directory_size
        (lru_cache_write 2 "n" 5 [⟨"old", 3, 1, false, false⟩] (some 4) none 0).2 : Nat) : Rat) ≤ 4 :=
  ⟨by decide, by
      norm_num [lru_cache_write, max_cache_size_of, evict_loop, evict_go,
        find_lru, write_file, get_directory_size, List.erase_cons],
    lru_cache_write_size_bound 2 "n" 5 [⟨"old", 3, 1, false, false⟩]
      (some 4) none 0 4 (by decide) (by
        norm_num [lru_cache_write, max_cache_size_of, evict_loop, evict_go,
          find_lru, write_file, get_directory_size, List.erase_cons])⟩

/-- C4 (confirmed): when the new item alone exceeds the effective ceiling,
`lru_cache_write` refuses immediately: it returns `False`, evicts nothing,
and leaves the directory contents unchanged. -/
theorem lru_cache_write_oversized_refusal
    (new_size : Nat) (name : String) (new_atime : Rat) (dir : List FsFile)
    (mabs : Option Nat) (mfp : Option Rat) (free : Nat) (c : Rat)
    (hceil : max_cache_size_of mabs mfp free = some c)
    (hbig : (new_size : Rat) > c) :
    lru_cache_write new_size name new_atime dir mabs mfp free = (false, dir) := by
  unfold lru_cache_write
  simp only [hceil]
  rw [if_pos hbig]

/-- Witness for C4 at a concrete input: a 5-byte item against a 4-byte
ceiling is refused and the directory is untouched. -/
theorem lru_cache_write_oversized_refusal_witness :
    max_cache_size_of (some 4) none 0 = some 4 ∧ ((5 : Nat) : Rat) > 4 ∧
    lru_cache_write 5 "n" 0 [⟨"old", 3, 1, false, false⟩] (some 4) none 0 =
      (false, [⟨"old", 3, 1, false, false⟩]) :=
  ⟨by decide, by norm_num,
    lru_cache_write_oversized_refusal 5 "n" 0 [⟨"old", 3, 1, false, false⟩]
      (some 4) none 0 4 (by decide) (by norm_num)⟩

/-- C5 (confirmed): on an error-free cache directory whose strictly
least-recently-used file is `m` (every other entry has a strictly larger
access time, as the claim's pairwise-distinct access times guarantee), when a
write needs to evict and evicting `m` alone makes the new item fit, the call
deletes exactly `m` — the oldest access time over the whole directory tree,
regardless of creation or modification times, which the model does not even
record — and then writes the new item. -/
theorem lru_cache_write_evicts_oldest_atime
    (new_size : Nat) (name : String) (new_atime : Rat) (dir : List FsFile)
    (mabs : Option Nat) (mfp : Option Rat) (free : Nat) (c : Rat) (m : FsFile)
    (hceil : max_cache_size_of mabs mfp free = some c)
    (herr : ∀ f ∈ dir, f.examineErr = false ∧ f.unlinkErr = false)
    (hm : m ∈ dir)
    (hmin : ∀ g ∈ dir, g ≠ m → m.atime < g.atime)
    (hfits : (new_size : Rat) ≤ c)
    (hover : 0 < (get_directory_size dir : Rat) + (new_size : Rat) - c)
    (hone : (get_directory_size dir : Rat) + (new_size : Rat) - c ≤ (m.size : Rat)) :
    lru_cache_write new_size name new_atime dir mabs mfp free =
      (true, write_file name new_size new_atime (dir.erase m)) := by
  have hbig : ¬ (new_size : Rat) > c := not_lt.mpr hfits
  have hlru : find_lru dir none = .ok (some m) := by
    rw [find_lru_eq_fold dir (fun f hf => (herr f hf).1) none]
    exact congrArg Except.ok (lru_fold_strict_min dir none hm hmin (Or.inl rfl))
  have hsize_pos : (0 : Rat) < (m.size : Rat) := lt_of_lt_of_le hover hone
  have hnz : ¬ (((get_directory_size dir : Rat) + (new_size : Rat) - c) - (m.size : Rat) =
      (get_directory_size dir : Rat) + (new_size : Rat) - c) := by
    intro h
    exact absurd (sub_eq_self.mp h) (ne_of_gt hsize_pos)
  have hstop : ¬ (0 : Rat) <
      ((get_directory_size dir : Rat) + (new_size : Rat) - c) - (m.size : Rat) := by
    have : ((get_directory_size dir : Rat) + (new_size : Rat) - c) - (m.size : Rat) ≤ 0 :=
      sub_nonpos.mpr hone
    exact not_lt.mpr this
  obtain ⟨k, hk⟩ : ∃ k, dir.length = k + 1 :=
    ⟨dir.length - 1,
      (Nat.succ_pred_eq_of_pos (List.length_pos.mpr (List.ne_nil_of_mem hm))).symm⟩
  have hul : m.unlinkErr = false := (herr m hm).2
  have hev : evict_loop dir ((get_directory_size dir : Rat) + (new_size : Rat) - c) =
      .ok (dir.erase m) := by
    unfold evict_loop
    rw [hk]
    show evict_go (k + 1 + 1) dir _ = _
    rw [show evict_go (k + 1 + 1) dir
          ((get_directory_size dir : Rat) + (new_size : Rat) - c) =
        evict_go (k + 1) (dir.erase m)
          (((get_directory_size dir : Rat) + (new_size : Rat) - c) - (m.size : Rat)) by
      simp [evict_go, hover, hlru, hul, hnz]]
    simp [evict_go, hstop]
  have hqsize : (get_directory_size (dir.erase m) : Rat) + (m.size : Rat) =
      (get_directory_size dir : Rat) := by
    exact_mod_cast get_directory_size_erase hm
  have hroom : (get_directory_size (dir.erase m) : Rat) + (new_size : Rat) ≤ c := by
    linarith
  unfold lru_cache_write
  simp only [hceil]
  rw [if_neg hbig, hev]
  simp only
  rw [if_pos hroom]

/-- Witness for C5 at a concrete input: between a file with access time 10
and one with access time 2, the one with access time 2 is evicted. -/
theorem lru_cache_write_evicts_oldest_atime_witness :
    (⟨"b", 5, 2, false, false⟩ : FsFile) ∈
      [(⟨"a", 5, 10, false, false⟩ : FsFile), ⟨"b", 5, 2, false, false⟩] ∧
    lru_cache_write 4 "n" 7
        [(⟨"a", 5, 10, false, false⟩ : FsFile), ⟨"b", 5, 2, false, false⟩]
        (some 12) none 0 =
      (true, write_file "n" 4 7
        ([(⟨"a", 5, 10, false, false⟩ : FsFile),
          ⟨"b", 5, 2, false, false⟩].erase ⟨"b", 5, 2, false, false⟩)) :=
  ⟨by decide,
    lru_cache_write_evicts_oldest_atime 4 "n" 7
      [⟨"a", 5, 10, false, false⟩, ⟨"b", 5, 2, false, false⟩]
      (some 12) none 0 12 ⟨"b", 5, 2, false, false⟩
      (by decide) (by decide) (by decide) (by decide) (by norm_num)
      (by norm_num [get_directory_size]) (by norm_num [get_directory_size])⟩

/-- C6 counterexample: with a single 10-byte cached file whose deletion
raises, a 12-byte ceiling and a 5-byte incoming item, eviction is required
and aborts on the filesystem error; contrary to the claim, the write of the
new item does not proceed — the call returns `False` and the directory is
left as it was, with the new item absent. -/
theorem lru_cache_write_eviction_error_cex :
    evict_loop [⟨"old", 10, 0, false, true⟩]
        ((get_directory_size [⟨"old", 10, 0, false, true⟩] : Rat) + (5 : Nat) - 12) =
      .error [⟨"old", 10, 0, false, true⟩] ∧
    lru_cache_write 5 "new" 7 [⟨"old", 10, 0, false, true⟩] (some 12) none 0 =
      (false, [⟨"old", 10, 0, false, true⟩]) := by
  constructor
  · norm_num [evict_loop, evict_go, find_lru, get_directory_size]
  · norm_num [lru_cache_write, max_cache_size_of, evict_loop, evict_go,
      find_lru, get_directory_size]

/-- C6 (amended): a filesystem error raised while examining or deleting an
eviction candidate is caught inside `lru_cache_write` — the call returns
normally instead of propagating the exception — but it aborts the remainder
of the call: the function returns `False` with the directory as it stood at
the error (only previously evicted candidates removed, the directory a
sublist of the original), and the new item is not written. -/
theorem lru_cache_write_eviction_error_contained
    (new_size : Nat) (name : String) (new_atime : Rat) (dir : List FsFile)
    (mabs : Option Nat) (mfp : Option Rat) (free : Nat) (c : Rat)
    (d : List FsFile)
    (hceil : max_cache_size_of mabs mfp free = some c)
    (hbig : ¬ (new_size : Rat) > c)
    (herr : evict_loop dir ((get_directory_size dir : Rat) + (new_size : Rat) - c) =
      .error d) :
    lru_cache_write new_size name new_atime dir mabs mfp free = (false, d) ∧
      d.Sublist dir := by
  constructor
  · unfold lru_cache_write
    simp only [hceil]
    rw [if_neg hbig, herr]
  · exact evict_go_sublist (dir.length + 1) dir _ d (Or.inl herr)

/-- Witness for C6 at a concrete input: a file that errs when examined
aborts the eviction scan; the call returns `False` with the directory
unchanged. -/
theorem lru_cache_write_eviction_error_contained_witness :
    evict_loop [⟨"x", 10, 0, true, false⟩]
        ((get_directory_size [⟨"x", 10, 0, true, false⟩] : Rat) + (5 : Nat) - 12) =
      .error [⟨"x", 10, 0, true, false⟩] ∧
    lru_cache_write 5 "n" 7 [⟨"x", 10, 0, true, false⟩] (some 12) none 0 =
      (false, [⟨"x", 10, 0, true, false⟩]) ∧
    List.Sublist [⟨"x", 10, 0, true, false⟩] [(⟨"x", 10, 0, true, false⟩ : FsFile)] := by
  have herr : evict_loop [⟨"x", 10, 0, true, false⟩]
      ((get_directory_size [⟨"x", 10, 0, true, false⟩] : Rat) + (5 : Nat) - 12) =
      .error [⟨"x", 10, 0, true, false⟩] := by
    norm_num [evict_loop, evict_go, find_lru, get_directory_size]
  have h := lru_cache_write_eviction_error_contained 5 "n" 7
    [⟨"x", 10, 0, true, false⟩] (some 12) none 0 12 [⟨"x", 10, 0, true, false⟩]
    (by decide) (by norm_num) herr
  exact ⟨herr, h.1, h.2⟩

/-! ## Claim theorems for the scan cache -/

/-- C1 counterexample: take a snapshot written at `T0 = 1000` and a
FreshnessTable mtime `M = 1099 = T0 + skew_allowance - 1` (the skew allowance
is 100).  The claim says the snapshot is trusted whenever
`T0 + skew_allowance ≥ M`, which holds here, and predicts a cache hit
returning the snapshot `[1]`; the code instead requires
`M + skew_allowance ≤ T0`, reports a cache miss, and performs a fresh remote
scan returning `[2]`. -/
theorem scan_table_cached_skew_claim_cex :
    ((1000 : Rat) + get_accommodated_clock_skew ≥ 1099) ∧
    (scan_table_cached none false 1000
        (⟨some ⟨1000, [1], false⟩, some 1099, some [2]⟩ : ScanState Nat)).2.1 = false ∧
    (scan_table_cached none false 1000
        (⟨some ⟨1000, [1], false⟩, some 1099, some [2]⟩ : ScanState Nat)).1 = [2] := by
  refine ⟨by norm_num [get_accommodated_clock_skew], ?_, ?_⟩ <;>
    norm_num [scan_table_cached, cache_life_ok, fresh_scan, get_accommodated_clock_skew]

/-- C1 (amended): with a readable snapshot of mtime `T0` within its cache
life, `scan_table_cached` trusts the snapshot (cache hit, returning the
deserialized snapshot) exactly when the FreshnessTable mtime `M` is present
and `M + clock-skew-allowance ≤ T0`; otherwise — in particular both when
`M = T0 + skew_allowance + 1` and when `M = T0 + skew_allowance - 1` — it
performs a fresh remote scan and returns the scanned rows. -/
theorem scan_table_cached_staleness {α : Type} (cache_life : Option Rat)
    (now T0 : Rat) (M : Option Rat) (snap : List α) (remote : Option (List α))
    (hlife : cache_life_ok now T0 cache_life = true) :
    ((scan_table_cached cache_life false now
        (⟨some ⟨T0, snap, false⟩, M, remote⟩ : ScanState α)).2.1 = true ↔
      ∃ m, M = some m ∧ m + get_accommodated_clock_skew ≤ T0) ∧
    ((scan_table_cached cache_life false now
        (⟨some ⟨T0, snap, false⟩, M, remote⟩ : ScanState α)).2.1 = true →
      (scan_table_cached cache_life false now
        (⟨some ⟨T0, snap, false⟩, M, remote⟩ : ScanState α)).1 = snap) ∧
    (∀ rows, remote = some rows →
      (scan_table_cached cache_life false now
        (⟨some ⟨T0, snap, false⟩, M, remote⟩ : ScanState α)).2.1 = false →
      (scan_table_cached cache_life false now
        (⟨some ⟨T0, snap, false⟩, M, remote⟩ : ScanState α)).1 = rows) := by
  cases M with
  | none =>
      have hres : scan_table_cached cache_life false now
          (⟨some ⟨T0, snap, false⟩, none, remote⟩ : ScanState α) =
          fresh_scan now ⟨some ⟨T0, snap, false⟩, none, remote⟩ := by
        simp [scan_table_cached, hlife]
      refine ⟨?_, ?_, ?_⟩ <;> rw [hres]
      · cases remote <;> simp [fresh_scan]
      · cases remote <;> simp [fresh_scan]
      · intro rows hr
        subst hr
        simp [fresh_scan]
  | some m =>
      by_cases hc : m + get_accommodated_clock_skew ≤ T0
      · have hres : scan_table_cached cache_life false now
            (⟨some ⟨T0, snap, false⟩, some m, remote⟩ : ScanState α) =
            (snap, true, ⟨some ⟨T0, snap, false⟩, some m, remote⟩) := by
          simp [scan_table_cached, hlife, hc]
        refine ⟨?_, ?_, ?_⟩ <;> rw [hres]
        · simp [hc]
        · intro
          rfl
        · intro rows hr habs
          simp at habs
      · have hres : scan_table_cached cache_life false now
            (⟨some ⟨T0, snap, false⟩, some m, remote⟩ : ScanState α) =
            fresh_scan now ⟨some ⟨T0, snap, false⟩, some m, remote⟩ := by
          simp [scan_table_cached, hlife, hc]
        refine ⟨?_, ?_, ?_⟩ <;> rw [hres]
        · cases remote <;> simp [fresh_scan, hc]
        · cases remote <;> simp [fresh_scan]
        · intro rows hr
          subst hr
          simp [fresh_scan]

/-- Witness for C1 at a concrete input: an infinite cache life, a snapshot of
mtime 5 and a FreshnessTable mtime of -200, which satisfies
`-200 + 100 ≤ 5`, so the snapshot is trusted. -/
theorem scan_table_cached_staleness_witness :
    cache_life_ok 10 5 none = true ∧
    (((scan_table_cached none false 10
        (⟨some ⟨5, [7], false⟩, some (-200), some [8]⟩ : ScanState Nat)).2.1 = true ↔
      ∃ m, (some (-200 : Rat)) = some m ∧ m + get_accommodated_clock_skew ≤ 5) ∧
    ((scan_table_cached none false 10
        (⟨some ⟨5, [7], false⟩, some (-200), some [8]⟩ : ScanState Nat)).2.1 = true →
      (scan_table_cached none false 10
        (⟨some ⟨5, [7], false⟩, some (-200), some [8]⟩ : ScanState Nat)).1 = [7]) ∧
    (∀ rows, (some [8] : Option (List Nat)) = some rows →
      (scan_table_cached none false 10
        (⟨some ⟨5, [7], false⟩, some (-200), some [8]⟩ : ScanState Nat)).2.1 = false →
      (scan_table_cached none false 10
        (⟨some ⟨5, [7], false⟩, some (-200), some [8]⟩ : ScanState Nat)).1 = rows)) :=
  ⟨rfl, scan_table_cached_staleness none 10 5 (some (-200)) [7] (some [8]) rfl⟩

/-! ## Claim theorems for idle queue reaping -/

/-- C2 counterexample: a queue matching the channel whose FreshnessTable
mtime is absent.  The claim says deletion is attempted and the queue is in
the returned list; the code's condition
`mtime is not None and time.time() - mtime > queue_timeout` skips it, so the
returned list is empty. -/
theorem remove_old_queues_absent_mtime_cex :
    remove_old_queues "ch" 0 ["chq1"] (fun _ => none) (fun _ => false) = [] := by
  rfl

/-- The reaping fold appends exactly the queue names whose mtime is present
and older than the timeout, independently of delete errors. -/
theorem roq_foldl_filter (now : Rat) (mtime_of : String → Option Rat)
    (delete_raises : String → Bool) :
    ∀ (queues : List String) (acc : List String),
      queues.foldl
        (fun removed q =>
          match mtime_of q with
          | some m =>
              if now - m > queue_timeout then
                match delete_raises q with
                | true => removed ++ [q]
                | false => removed ++ [q]
              else removed
          | none => removed)
        acc =
      acc ++ queues.filter (fun q =>
        match mtime_of q with
        | some m => decide (now - m > queue_timeout)
        | none => false) := by
  intro queues
  induction queues with
  | nil => intro acc; simp
  | cons q2 rest ih =>
      intro acc
      simp only [List.foldl_cons, List.filter_cons]
      cases hmt : mtime_of q2 with
      | none => simp [hmt, ih acc]
      | some m =>
          by_cases ht : now - m > queue_timeout
          · have hstep :
                (match delete_raises q2 with
                  | true => acc ++ [q2]
                  | false => acc ++ [q2]) = acc ++ [q2] := by
              cases delete_raises q2 <;> rfl
            simp [hmt, ht, hstep, ih (acc ++ [q2])]
          · simp [hmt, ht, ih acc]

/-- C2 (amended): for a channel of length at least 2, `remove_old_queues`
attempts deletion exactly for the queue names whose FreshnessTable mtime is
present and older than the fixed 30-day TTL — a queue with an absent mtime is
skipped, not deleted — and the returned list contains exactly those names (a
does-not-exist `ClientError` on delete is treated as success and does not
affect the result, as the quantification over `delete_raises` shows). -/
theorem remove_old_queues_reap_condition
    (channel : String) (now : Rat) (queues : List String)
    (mtime_of : String → Option Rat) (delete_raises : String → Bool)
    (hlen : 2 ≤ channel.length) :
    remove_old_queues channel now queues mtime_of delete_raises =
      queues.filter (fun q =>
        match mtime_of q with
        | some m => decide (now - m > queue_timeout)
        | none => false) ∧
    ∀ q, q ∈ remove_old_queues channel now queues mtime_of delete_raises ↔
      q ∈ queues ∧ ∃ m, mtime_of q = some m ∧ now - m > queue_timeout := by
  have hnot : ¬ channel.length < 2 := by omega
  have hfold := roq_foldl_filter now mtime_of delete_raises queues []
  have heq : remove_old_queues channel now queues mtime_of delete_raises =
      queues.filter (fun q =>
        match mtime_of q with
        | some m => decide (now - m > queue_timeout)
        | none => false) := by
    unfold remove_old_queues
    rw [if_neg hnot]
    simpa using hfold
  refine ⟨heq, ?_⟩
  intro q
  rw [heq, List.mem_filter]
  cases hmt : mtime_of q with
  | none => simp [hmt]
  | some m => simp [hmt]

/-- Witness for C2 at a concrete input: a queue last touched at time 0,
reaped at time 3000000 (past the 2592000-second TTL), is removed. -/
theorem remove_old_queues_reap_condition_witness :
    2 ≤ "ch".length ∧
    ("q1" ∈ remove_old_queues "ch" 3000000 ["q1"] (fun _ => some 0) (fun _ => false) ↔
      "q1" ∈ ["q1"] ∧
        ∃ m, (fun _ => some (0 : Rat)) "q1" = some m ∧
          (3000000 : Rat) - m > queue_timeout) :=
  ⟨by decide,
    (remove_old_queues_reap_condition "ch" 3000000 ["q1"] (fun _ => some 0)
      (fun _ => false) (by decide)).2 "q1"⟩

/-! ## Claim theorems for the FreshnessTable -/

/-- Upserting a key makes it look up to the stored value. -/
theorem lookup_mtime_upsert (k : String × String) (v : Rat) :
    ∀ t, lookup_mtime k (upsert_mtime k v t) = some v := by
  intro t
  induction t with
  | nil => simp [upsert_mtime, lookup_mtime]
  | cons kv rest ih =>
      obtain ⟨k2, v2⟩ := kv
      by_cases hk : k2 = k
      · simp [upsert_mtime, lookup_mtime, hk]
      · simp [upsert_mtime, lookup_mtime, hk, ih]

/-- C7 (confirmed): immediately after a successful `update_table_mtime`
(touch) at wall-clock time `now`, `get_table_mtime_f` for the same
`(service, name)` key returns exactly the recorded touch time `now` (hence
within any tolerance of the wall clock); and on a metadata table holding no
record for the key — a pair never touched — it returns `None`. -/
theorem freshness_round_trip :
    (∀ (st st2 : MetadataTableState) (n : Nat) (k : String × String) (now : Rat),
        update_table_mtime none now st k = .ok (st2, n) →
        get_table_mtime_f st2 k = .ok (some now)) ∧
    (∀ (st : MetadataTableState) (t : List ((String × String) × Rat))
        (k : String × String),
        st.table = some t → lookup_mtime k t = none →
        get_table_mtime_f st k = .ok none) := by
  constructor
  · intro st st2 n k now h
    cases hst : st.table with
    | some t =>
        simp [update_table_mtime, put_item, hst] at h
        rw [← h.1]
        simp [get_table_mtime_f, lookup_mtime_upsert]
    | none =>
        simp [update_table_mtime, put_item, hst] at h
        rw [← h.1]
        simp [get_table_mtime_f, upsert_mtime, lookup_mtime]
  · intro st t k h1 h2
    simp [get_table_mtime_f, h1, h2]

/-- Witness for C7 at a concrete input: touching `("dynamodb", "t")` at time
42 makes the lookup return 42; the untouched table returns `None`. -/
theorem freshness_round_trip_witness :
    update_table_mtime none 42 ⟨some []⟩ ("dynamodb", "t") =
      .ok (⟨some [(("dynamodb", "t"), 42)]⟩, 1) ∧
    get_table_mtime_f ⟨some [(("dynamodb", "t"), 42)]⟩ ("dynamodb", "t") =
      .ok (some 42) ∧
    get_table_mtime_f ⟨some []⟩ ("dynamodb", "t") = .ok none :=
  ⟨rfl, freshness_round_trip.1 ⟨some []⟩ ⟨some [(("dynamodb", "t"), 42)]⟩ 1
      ("dynamodb", "t") 42 rfl,
    freshness_round_trip.2 ⟨some []⟩ [] ("dynamodb", "t") rfl rfl⟩

/-- C8 (confirmed): a touch issued while the metadata table does not exist
creates the table transparently and retries the put exactly once (two
`put_item` attempts in total), so the call still succeeds and records the
mtime; a backend error other than table-missing/validation is re-raised. -/
theorem metadata_table_self_healing :
    (∀ (st : MetadataTableState) (k : String × String) (now : Rat),
        st.table = none →
        update_table_mtime none now st k = .ok (⟨some [(k, now)]⟩, 2)) ∧
    (∀ (st : MetadataTableState) (k : String × String) (now : Rat),
        update_table_mtime (some .other) now st k = .error .other) := by
  constructor
  · intro st k now h
    simp [update_table_mtime, put_item, h, upsert_mtime]
  · intro st k now
    rfl

/-- Witness for C8 at a concrete input: touching a destroyed metadata table
recreates it with the single fresh record after two put attempts; an injected
unrelated backend error propagates. -/
theorem metadata_table_self_healing_witness :
    update_table_mtime none 42 ⟨none⟩ ("dynamodb", "t") =
      .ok (⟨some [(("dynamodb", "t"), 42)]⟩, 2) ∧
    update_table_mtime (some .other) 42 ⟨none⟩ ("dynamodb", "t") = .error .other :=
  ⟨metadata_table_self_healing.1 ⟨none⟩ ("dynamodb", "t") 42 rfl,
    metadata_table_self_healing.2 ⟨none⟩ ("dynamodb", "t") 42⟩

/-! ## Claim theorems for name sanitization -/

set_option maxRecDepth 10000

/-- C9 (confirmed): `make_name_aws_safe` is a pure function of its argument
strings — calling it twice on the same inputs yields the identical output,
with no dependence on locale or process state, which the model has no access
to; every output is exactly 31 characters, each a base-36 digit `0-9a-z`; and
the inputs `"a"` and `"b"` hash to different outputs. -/
theorem make_name_aws_safe_shape :
    (∀ args : List String, make_name_aws_safe args = make_name_aws_safe args) ∧
    (∀ args : List String, (make_name_aws_safe args).length = 31) ∧
    (∀ args : List String,
      (make_name_aws_safe args).data.all
        (fun ch => ch.isDigit || ((97 ≤ ch.toNat) && (ch.toNat ≤ 122))) = true) ∧
    make_name_aws_safe ["a"] ≠ make_name_aws_safe ["b"] := by
  refine ⟨fun _ => rfl, ?_, ?_, by decide⟩
  · intro args
    simp [make_name_aws_safe, base36_31, String.length]
  · intro args
    have hd : ∀ d : Nat, d < 36 →
        ((base36_digit d).isDigit ||
          ((97 ≤ (base36_digit d).toNat) && ((base36_digit d).toNat ≤ 122))) = true := by
      decide
    rw [List.all_eq_true]
    intro ch hch
    simp only [make_name_aws_safe, base36_31] at hch
    rcases List.mem_map.mp hch with ⟨i, _, hi⟩
    rw [← hi]
    exact hd _ (Nat.mod_lt _ (by norm_num))

/-! ## Claim theorems for subscriber polling -/

/-- Enqueuing a batch of messages appends them to the FIFO queue in order. -/
theorem sub_enqueue_foldl (msgs : List String) :
    ∀ st : SubState, msgs.foldl sub_enqueue st =
      ⟨st.use_sub_queue, st.sub_queue ++ msgs⟩ := by
  induction msgs with
  | nil =>
      intro st
      cases st
      simp
  | cons s rest ih =>
      intro st
      simp [List.foldl_cons, sub_enqueue, ih]

/-- C10 (confirmed): on a `Sub` created with `sub_poll = True`,
`get_messages` returns every buffered message of the internal subscribe
queue, decoded, in the FIFO order the coordinator enqueued them, and leaves
the queue empty — so an immediately following call with no intervening
arrivals returns the empty list; on a `Sub` created with `sub_poll = False`
it raises `RuntimeError` no matter what was enqueued. -/
theorem get_messages_drains_inbox {α : Type} (json_loads : String → α) :
    (∀ msgs : List String,
        get_messages json_loads (msgs.foldl sub_enqueue (mk_sub true)) =
          .ok (msgs.map json_loads, mk_sub true)) ∧
    get_messages json_loads (mk_sub true) = .ok ([], mk_sub true) ∧
    (∀ msgs : List String,
        get_messages json_loads (msgs.foldl sub_enqueue (mk_sub false)) =
          .error "sub_poll must be True to use get_messages()") := by
  refine ⟨?_, rfl, ?_⟩
  · intro msgs
    rw [sub_enqueue_foldl msgs (mk_sub true)]
    simp [get_messages, mk_sub]
  · intro msgs
    rw [sub_enqueue_foldl msgs (mk_sub false)]
    simp [get_messages, mk_sub]

end Awsimple
